import Mathlib

/-!
Verification of the agentskills_eval repository against its specification.

Python strings are shallowly embedded as `List Char`; Python's `str` builtins
(`strip`, `lower`, `replace`, `splitlines`, `lstrip`) are modelled by
executable Lean functions below, restricted to the ASCII behaviour the source
exercises.  File-system and subprocess effects are modelled by explicit state
(an association list of files plus a list of created directories) and by
oracle functions passed in as parameters; `os.path.join` and
`os.path.dirname` follow their documented POSIX semantics.
-/

set_option maxHeartbeats 1000000

namespace AgentEval

/-- Characters Python's `str.strip()` removes by default, restricted to the
ASCII whitespace the source files can encounter. -/
def isPySpace (c : Char) : Bool :=
  c == ' ' || c == '\t' || c == '\n' || c == '\r' || c == Char.ofNat 11 || c == Char.ofNat 12

/-- Python `s.strip()`: drop leading and trailing whitespace. -/
def stripL (s : List Char) : List Char :=
  ((s.dropWhile isPySpace).reverse.dropWhile isPySpace).reverse

/-- Python `s.strip(ch)` for a one-character argument: drop every leading and
trailing copy of `ch`. -/
def stripChar (ch : Char) (s : List Char) : List Char :=
  ((s.dropWhile (· == ch)).reverse.dropWhile (· == ch)).reverse

/-- ASCII lower-casing, modelling Python `str.lower()` on the characters the
source actually compares (the pattern `"name:"` is ASCII). -/
def lowerChar (c : Char) : Char :=
  if 65 ≤ c.toNat ∧ c.toNat ≤ 90 then Char.ofNat (c.toNat + 32) else c

/-- Python `s.lower()` on the ASCII fragment. -/
def lowerL (s : List Char) : List Char := s.map lowerChar

/-- Does `pat` occur at the very start of `s`. -/
def isPrefixL : List Char → List Char → Bool
  | [], _ => true
  | _ :: _, [] => false
  | p :: ps, c :: cs => if p = c then isPrefixL ps cs else false

/-- Python's substring test `pat in s`: `pat` occurs contiguously in `s`. -/
def containsSub (pat : List Char) : List Char → Bool
  | [] => pat.isEmpty
  | c :: rest => isPrefixL pat (c :: rest) || containsSub pat rest

/-- Python `s.lstrip("/")`: drop every leading slash. -/
def lstripSlash (s : List Char) : List Char := s.dropWhile (· == '/')

/-- Python `s.replace("..", "")`: delete the occurrences of `".."`, scanning
left to right without overlap. -/
def removeDotDot : List Char → List Char
  | [] => []
  | [c] => [c]
  | c1 :: c2 :: rest =>
    if c1 = '.' ∧ c2 = '.' then removeDotDot rest
    else c1 :: removeDotDot (c2 :: rest)

/-- The two-character string `".."`. -/
def ddot : List Char := ['.', '.']

/-- Does the string start with a path separator. -/
def startsWithSlash : List Char → Bool
  | [] => false
  | c :: _ => c == '/'

/-- Does the string end with a path separator. -/
def endsWithSlash (s : List Char) : Bool := startsWithSlash s.reverse

/-- POSIX `os.path.join` on two components: an absolute second component
discards the first; otherwise the two are joined with a separator unless one
is already there. -/
def osPathJoin (a b : List Char) : List Char :=
  if startsWithSlash b then b
  else if a.isEmpty then b
  else if endsWithSlash a then a ++ b
  else a ++ '/' :: b

namespace Common

/-- safe_join of src/common.py lines 8-10 (the same text appears in
src/personality.py lines 6-8): strip leading slashes from the relative path,
delete every literal `".."`, then `os.path.join` the result to the
workspace. -/
def safe_join (workspace relpath : List Char) : List Char :=
  osPathJoin workspace (removeDotDot (lstripSlash relpath))

end Common

/-- Output of `removeDotDot` never has two adjacent dots. -/
def noTwoDots : List Char → Bool
  | c1 :: c2 :: rest => !(c1 == '.' && c2 == '.') && noTwoDots (c2 :: rest)
  | _ => true

theorem removeDotDot_cons_ne (c : Char) (r : List Char) (hc : ¬ c = '.') :
    removeDotDot (c :: r) = c :: removeDotDot r := by
  cases r with
  | nil => simp [removeDotDot]
  | cons c2 r2 =>
    simp only [removeDotDot]
    rw [if_neg]
    intro h
    exact hc h.1

theorem noTwoDots_cons_of_ne (c : Char) (l : List Char) (hc : ¬ c = '.')
    (hl : noTwoDots l = true) : noTwoDots (c :: l) = true := by
  cases l with
  | nil => simp [noTwoDots]
  | cons x xs =>
    simp only [noTwoDots, Bool.and_eq_true, Bool.not_eq_true']
    refine ⟨?_, hl⟩
    simp only [Bool.and_eq_false_iff]
    left
    simpa using hc

theorem noTwoDots_removeDotDot (l : List Char) : noTwoDots (removeDotDot l) = true := by
  induction l using removeDotDot.induct with
  | case1 => simp [removeDotDot, noTwoDots]
  | case2 c => simp [removeDotDot, noTwoDots]
  | case3 c1 c2 rest h ih =>
    simp only [removeDotDot, if_pos h]
    exact ih
  | case4 c1 c2 rest h ih =>
    simp only [removeDotDot, if_neg h]
    by_cases hc1 : c1 = '.'
    · have hc2 : ¬ c2 = '.' := fun hc2 => h ⟨hc1, hc2⟩
      rw [removeDotDot_cons_ne c2 rest hc2] at ih ⊢
      subst hc1
      simp only [noTwoDots, Bool.and_eq_true, Bool.not_eq_true']
      refine ⟨?_, ih⟩
      simp only [Bool.and_eq_false_iff]
      right
      simpa using hc2
    · exact noTwoDots_cons_of_ne c1 _ hc1 ih

theorem isPrefixL_ddot_false (c c2 : Char) (r2 : List Char)
    (h : ¬ (c = '.' ∧ c2 = '.')) : isPrefixL ddot (c :: c2 :: r2) = false := by
  by_cases hc : c = '.'
  · subst hc
    have hc2 : ¬ c2 = '.' := fun hc2 => h ⟨rfl, hc2⟩
    simp [ddot, isPrefixL, Ne.symm hc2]
  · simp [ddot, isPrefixL, Ne.symm hc]

theorem containsSub_ddot_eq_false (l : List Char) (h : noTwoDots l = true) :
    containsSub ddot l = false := by
  induction l with
  | nil => rfl
  | cons c rest ih =>
    cases rest with
    | nil => simp [containsSub, ddot, isPrefixL]
    | cons c2 r2 =>
      simp only [noTwoDots, Bool.and_eq_true, Bool.not_eq_true'] at h
      obtain ⟨hnot, hrest⟩ := h
      have hne : ¬ (c = '.' ∧ c2 = '.') := by
        intro ⟨h1, h2⟩
        subst h1; subst h2
        simp at hnot
      have hstep : containsSub ddot (c :: c2 :: r2)
          = (isPrefixL ddot (c :: c2 :: r2) || containsSub ddot (c2 :: r2)) := rfl
      rw [hstep, isPrefixL_ddot_false c c2 r2 hne, ih hrest]
      rfl

/-- Helper: the cleaned relative path `safe_join` builds never contains the
substring `".."`. -/
theorem removeDotDot_clean (l : List Char) : containsSub ddot (removeDotDot l) = false :=
  containsSub_ddot_eq_false _ (noTwoDots_removeDotDot l)

/-- Claim C1, counterexample.  On the spec's own example input
`"../../etc/passwd"`, `safe_join` first strips no slash, then deletes the two
`".."` substrings, leaving `"//etc/passwd"`, which begins with a separator; so
`os.path.join` discards the workspace root entirely and the resolved path
(`/etc/passwd` after the OS collapses the doubled slash) is not inside
`"/ws"`: `read_file`/`write_file` called on this input operate outside the
workspace. -/
theorem safe_join_escapes_on_traversal :
    Common.safe_join "/ws".toList "../../etc/passwd".toList = "//etc/passwd".toList
    ∧ isPrefixL "/ws/".toList "//etc/passwd".toList = false
    ∧ "//etc/passwd".toList ≠ "/ws".toList := by
  refine ⟨by decide, by decide, by decide⟩

/-- Claim C1, amended.  The cleaned path contains no `".."` substring, and
whenever the cleaned path does not begin with a separator (and the workspace
root is a nonempty path not ending in a separator), the joined path is exactly
the workspace root followed by a separator and the cleaned path — i.e.
confinement holds except on inputs whose `".."` deletion exposes a leading
slash, such as the counterexample above. -/
theorem safe_join_confined_amended (workspace relpath : List Char)
    (h1 : startsWithSlash (removeDotDot (lstripSlash relpath)) = false)
    (h2 : workspace.isEmpty = false)
    (h3 : endsWithSlash workspace = false) :
    Common.safe_join workspace relpath
      = workspace ++ '/' :: removeDotDot (lstripSlash relpath)
    ∧ containsSub ddot (removeDotDot (lstripSlash relpath)) = false := by
  constructor
  · unfold Common.safe_join osPathJoin
    rw [h1, h2, h3]
    simp
  · exact removeDotDot_clean _

/-- Claim C1, witness for the amended theorem at a concrete benign input. -/
theorem safe_join_confined_amended_witness :
    Common.safe_join "/ws".toList "docs/readme.md".toList
      = "/ws".toList ++ '/' :: removeDotDot (lstripSlash "docs/readme.md".toList)
    ∧ containsSub ddot (removeDotDot (lstripSlash "docs/readme.md".toList)) = false :=
  safe_join_confined_amended "/ws".toList "docs/readme.md".toList
    (by decide) (by decide) (by decide)

/-- Claim C9, counterexample.  The claim's concrete example is off by one
deletion: `replace("..", "")` deletes both dots of `"notes..md"`, so
`safe_join` yields `"/ws/notesmd"`, not the claimed `"/ws/notes.md"`. -/
theorem safe_join_inner_dots_counterexample :
    Common.safe_join "/ws".toList "notes..md".toList = "/ws/notesmd".toList
    ∧ "/ws/notesmd".toList ≠ "/ws/notes.md".toList := by
  exact ⟨by decide, by decide⟩

/-- Claim C9, amended.  `safe_join` deletes every `".."` substring anywhere in
the input, not only as a path segment: the cleaned path never contains
`".."`, and for the filename `"notes..md"` the function returns the join of
the root with the rewritten name `"notesmd"` (both dots deleted) — so
`read_file` and `write_file` silently address a different file than the one
named (the join of the root with the literal name). -/
theorem safe_join_rewrites_inner_dots :
    (∀ relpath : List Char, containsSub ddot (removeDotDot (lstripSlash relpath)) = false)
    ∧ Common.safe_join "/ws".toList "notes..md".toList = "/ws/notesmd".toList
    ∧ Common.safe_join "/ws".toList "notes..md".toList
        ≠ osPathJoin "/ws".toList "notes..md".toList :=
  ⟨fun relpath => removeDotDot_clean (lstripSlash relpath), by decide, by decide⟩

/-- Python `str.splitlines()` restricted to the terminators `"\r\n"`, `"\r"`
and `"\n"` (the ones the repository's markdown files can contain); the
terminators are not kept and a trailing terminator opens no empty line. -/
def splitlinesAux (cur : List Char) : List Char → List (List Char)
  | [] => if cur.isEmpty then [] else [cur.reverse]
  | '\r' :: '\n' :: rest => cur.reverse :: splitlinesAux [] rest
  | '\n' :: rest => cur.reverse :: splitlinesAux [] rest
  | '\r' :: rest => cur.reverse :: splitlinesAux [] rest
  | c :: rest => splitlinesAux (c :: cur) rest

/-- Python `md_text.splitlines()`. -/
def splitlines (s : List Char) : List (List Char) := splitlinesAux [] s

/-- The frontmatter delimiter `"---"`. -/
def dashes : List Char := ['-', '-', '-']

/-- The frontmatter key `"name:"`. -/
def nameKey : List Char := ['n', 'a', 'm', 'e', ':']

/-- Does a frontmatter body line declare the name: its stripped, lower-cased
text starts with `"name:"`. -/
def namePred (line : List Char) : Bool := isPrefixL nameKey (lowerL (stripL line))

/-- Index, among the lines after the first, of the first delimiter line,
scanning at most `fuel` lines: models the `for i in range(1,
min(len(lines), 2000))` search for the closing delimiter. -/
def findClose : List (List Char) → Nat → Option Nat
  | _, 0 => none
  | [], _ + 1 => none
  | l :: rest, fuel + 1 =>
    if stripL l = dashes then some 0 else (findClose rest fuel).map (· + 1)

/-- First line satisfying `namePred`, if any: models the `for i in
range(1, end)` search for the name line. -/
def findName : List (List Char) → Option (List Char)
  | [] => none
  | l :: rest => if namePred l then some l else findName rest

/-- Everything after the first `':'` of the line — the `[1]` component of
`line.split(":", 1)` (total; every caller guarantees a colon exists). -/
def afterColon (s : List Char) : List Char := (s.dropWhile (· ≠ ':')).drop 1

/-- Value extraction from the matched line:
`line.split(":", 1)[1].strip().strip(quote).strip(apostrophe)`, with the
two quote characters written by code point. -/
def parseName (line : List Char) : List Char :=
  stripChar (Char.ofNat 39) (stripChar (Char.ofNat 34) (stripL (afterColon (stripL line))))

namespace Common

/-- extract_frontmatter_name of src/common.py lines 64-79: empty unless the
first line strips to `"---"`; the block must close at another such line
within the 2000-line scan window; the first body line whose stripped,
lower-cased text starts with `"name:"` yields the value after its colon,
whitespace- and quote-stripped. -/
def extract_frontmatter_name (md : List Char) : List Char :=
  match splitlines md with
  | [] => []
  | first :: rest =>
    if stripL first ≠ dashes then []
    else
      match findClose rest (min (rest.length + 1) 2000 - 1) with
      | none => []
      | some k =>
        match findName (rest.take k) with
        | none => []
        | some line => parseName line

end Common

theorem take_length_append {α : Type} (pre post : List α) :
    (pre ++ post).take pre.length = pre := by
  induction pre with
  | nil => rfl
  | cons a l ih => simp [List.take_succ_cons, ih]

theorem findClose_eq (pre : List (List Char)) (close : List Char)
    (post : List (List Char)) (fuel : Nat)
    (hpre : ∀ l ∈ pre, stripL l ≠ dashes) (hclose : stripL close = dashes)
    (hfuel : pre.length < fuel) :
    findClose (pre ++ close :: post) fuel = some pre.length := by
  induction pre generalizing fuel with
  | nil =>
    cases fuel with
    | zero => omega
    | succ f => simp [findClose, hclose]
  | cons l pre ih =>
    cases fuel with
    | zero => omega
    | succ f =>
      have hl : ¬ stripL l = dashes := hpre l (List.mem_cons_self l pre)
      have hrec := ih f (fun x hx => hpre x (List.mem_cons_of_mem l hx)) (by
        simp only [List.length_cons] at hfuel
        omega)
      simp [findClose, hl, hrec]

theorem findName_eq_none (pre : List (List Char))
    (h : ∀ l ∈ pre, namePred l = false) : findName pre = none := by
  induction pre with
  | nil => rfl
  | cons l rest ih =>
    have hl : namePred l = false := h l (List.mem_cons_self l rest)
    simp [findName, hl, ih fun x hx => h x (List.mem_cons_of_mem l hx)]

theorem findName_append (pre xs : List (List Char))
    (h : ∀ l ∈ pre, namePred l = false) :
    findName (pre ++ xs) = findName xs := by
  induction pre with
  | nil => rfl
  | cons l rest ih =>
    have hl : namePred l = false := h l (List.mem_cons_self l rest)
    simp [findName, hl, ih fun x hx => h x (List.mem_cons_of_mem l hx)]

theorem extract_eq_of_open (md first : List Char) (rest : List (List Char))
    (h : splitlines md = first :: rest) (hd : stripL first = dashes) :
    Common.extract_frontmatter_name md
      = (match findClose rest (min (rest.length + 1) 2000 - 1) with
         | none => []
         | some k =>
           (match findName (rest.take k) with
            | none => []
            | some line => parseName line)) := by
  unfold Common.extract_frontmatter_name
  rw [h]
  simp [hd]

/-- Claim C4.  `extract_frontmatter_name` returns the empty string when there
is no first line, or the first line does not strip to the delimiter; for a
block closed by a second delimiter within the scan window with no
`"name:"`-line (case-insensitive) before the close it also returns the empty
string; and when such a line exists, the first one's after-colon value is
returned with whitespace and surrounding quote characters stripped
(`parseName`). -/
theorem extract_frontmatter_name_spec (md : List Char) :
    (splitlines md = [] → Common.extract_frontmatter_name md = [])
    ∧ (∀ first rest, splitlines md = first :: rest → ¬ stripL first = dashes →
        Common.extract_frontmatter_name md = [])
    ∧ (∀ first pre close post,
        splitlines md = first :: (pre ++ close :: post) →
        stripL first = dashes →
        stripL close = dashes →
        (∀ l ∈ pre, stripL l ≠ dashes) →
        pre.length + 1 < 2000 →
        (∀ l ∈ pre, namePred l = false) →
        Common.extract_frontmatter_name md = [])
    ∧ (∀ first pre1 nameLine pre2 close post,
        splitlines md = first :: ((pre1 ++ nameLine :: pre2) ++ close :: post) →
        stripL first = dashes →
        stripL close = dashes →
        (∀ l ∈ pre1 ++ nameLine :: pre2, stripL l ≠ dashes) →
        (pre1 ++ nameLine :: pre2).length + 1 < 2000 →
        (∀ l ∈ pre1, namePred l = false) →
        namePred nameLine = true →
        Common.extract_frontmatter_name md = parseName nameLine) := by
  refine ⟨?_, ?_, ?_, ?_⟩
  · intro h
    unfold Common.extract_frontmatter_name
    rw [h]
  · intro first rest h hne
    unfold Common.extract_frontmatter_name
    rw [h]
    simp [hne]
  · intro first pre close post h hd hclose hpre hw hnoname
    rw [extract_eq_of_open md first _ h hd]
    have hfuel : pre.length < min ((pre ++ close :: post).length + 1) 2000 - 1 := by
      simp only [List.length_append, List.length_cons]
      omega
    rw [findClose_eq pre close post _ hpre hclose hfuel]
    simp [take_length_append pre (close :: post), findName_eq_none pre hnoname]
  · intro first pre1 nameLine pre2 close post h hd hclose hpre hw hpre1 hname
    rw [extract_eq_of_open md first _ h hd]
    have hfuel : (pre1 ++ nameLine :: pre2).length
        < min (((pre1 ++ nameLine :: pre2) ++ close :: post).length + 1) 2000 - 1 := by
      simp only [List.length_append, List.length_cons] at hw ⊢
      omega
    rw [findClose_eq (pre1 ++ nameLine :: pre2) close post _ hpre hclose hfuel]
    have hfind : findName (pre1 ++ nameLine :: pre2) = some nameLine := by
      rw [findName_append pre1 (nameLine :: pre2) hpre1]
      simp [findName, hname]
    show (match findName (((pre1 ++ nameLine :: pre2) ++ close :: post).take
        (pre1 ++ nameLine :: pre2).length) with
      | none => ([] : List Char)
      | some line => parseName line) = parseName nameLine
    rw [take_length_append (pre1 ++ nameLine :: pre2) (close :: post), hfind]

/-- Claim C4, witness: the three behaviours at concrete inputs — no leading
delimiter, a closed block without a name key, and a closed block whose
`Name: "Foo"` line (capitalised, quoted) yields `"Foo"`. -/
theorem extract_frontmatter_name_spec_witness :
    Common.extract_frontmatter_name "no frontmatter here".toList = []
    ∧ Common.extract_frontmatter_name "---\ntitle: x\n---\nbody".toList = []
    ∧ Common.extract_frontmatter_name "---\nName: \"Foo\"\n---\nbody".toList = "Foo".toList := by
  refine ⟨?_, ?_, ?_⟩
  · exact (extract_frontmatter_name_spec _).2.1 "no frontmatter here".toList []
      (by decide) (by decide)
  · exact (extract_frontmatter_name_spec _).2.2.1 "---".toList ["title: x".toList]
      "---".toList ["body".toList] (by decide) (by decide) (by decide)
      (by decide) (by decide) (by decide)
  · exact ((extract_frontmatter_name_spec _).2.2.2 "---".toList []
      "Name: \"Foo\"".toList [] "---".toList ["body".toList]
      (by decide) (by decide) (by decide) (by decide) (by decide) (by decide)
      (by decide)).trans (by decide)

/-- The apostrophe character, written by code point. -/
def apost : Char := Char.ofNat 39

/-- Metadata record build_skills_context collects per readable skill file
(src/common.py line 103). -/
structure SkillMeta where
  path : List Char
  name : List Char
deriving DecidableEq

/-- Metadata record build_context collects per emitted context file
(src/common.py line 159). -/
structure CtxMeta where
  path : List Char
  chars : List Char
deriving DecidableEq

/-- Display name for a skill without a frontmatter name. -/
def unnamedMark : List Char := "(unnamed)".toList

/-- Marker block build_skills_context wraps a skill text in: the header and
footer f-strings of src/common.py lines 105-108 around the text. -/
def skillAddition (relPath text : List Char) : List Char :=
  let name := Common.extract_frontmatter_name text
  let disp := if name.isEmpty then unnamedMark else name
  "\n\n===== SKILL START: ".toList ++ disp ++ " | ".toList ++ relPath ++ " =====\n".toList
    ++ text
    ++ "\n===== SKILL END: ".toList ++ disp ++ " | ".toList ++ relPath ++ " =====\n".toList

/-- Marker block build_context wraps a context file in (src/common.py lines
150-153). -/
def contextAddition (relPath text : List Char) : List Char :=
  "\n\n===== CONTEXT START: ".toList ++ relPath ++ " =====\n".toList
    ++ text
    ++ "\n===== CONTEXT END: ".toList ++ relPath ++ " =====\n".toList

/-- Chunk-collection loop of build_skills_context (src/common.py lines
95-113), modelled over the ordered list of discovered files, each paired
with its text or `none` when unreadable (the walk and the read are I/O).
Per readable file: metadata first, then the budget test — on overflow the
loop breaks, keeping the current file's metadata but dropping its chunk and
every later file. -/
def skillsLoop : List (List Char × Option (List Char)) → Nat → Nat →
    List (List Char) × List SkillMeta
  | [], _, _ => ([], [])
  | (_, none) :: rest, used, budget => skillsLoop rest used budget
  | (p, some t) :: rest, used, budget =>
    let meta : SkillMeta := ⟨p, Common.extract_frontmatter_name t⟩
    let addition := skillAddition p t
    if budget < used + addition.length then ([], [meta])
    else
      let r := skillsLoop rest (used + addition.length) budget
      (addition :: r.1, meta :: r.2)

/-- Chunk-collection loop of build_context (src/common.py lines 140-159):
same budget rule, but metadata is only recorded for emitted chunks. -/
def contextLoop : List (List Char × Option (List Char)) → Nat → Nat →
    List (List Char) × List CtxMeta
  | [], _, _ => ([], [])
  | (_, none) :: rest, used, budget => contextLoop rest used budget
  | (p, some t) :: rest, used, budget =>
    let addition := contextAddition p t
    if budget < used + addition.length then ([], [])
    else
      let r := contextLoop rest (used + addition.length) budget
      (addition :: r.1, ⟨p, Nat.toDigits 10 t.length⟩ :: r.2)

/-- Preamble of src/common.py lines 118-122; the apostrophe is written by
code point. -/
def skillsPreamble : List Char :=
  "You have access to the following agent skills. Use them when relevant. Follow each skill".toList
    ++ apost :: "s instructions exactly, including required tools/workflows.\nSkills are provided below delimited by SKILL START/END markers.".toList

/-- Preamble of src/common.py lines 164-167. -/
def ctxPreamble : List Char :=
  "You have the following context definitions. Follow these instructions to shape your responses.\nContext definitions are provided below delimited by CONTEXT START/END markers.".toList

namespace Common

/-- build_skills_context of src/common.py lines 82-124, modelled from the
discovered file list on (the `isdir` guard, `find_skill_markdowns` walk,
`relpath` and `read_file` being I/O that produces that list): collect chunks
and metadata under the budget, and prepend the preamble unless no chunk was
emitted. -/
def build_skills_context (files : List (List Char × Option (List Char)))
    (max_chars_total : Nat) : List Char × List SkillMeta :=
  let r := skillsLoop files 0 max_chars_total
  if r.1.isEmpty then ([], r.2) else (skillsPreamble ++ r.1.flatten, r.2)

/-- build_context of src/common.py lines 127-170, modelled from the caller
supplied file list paired with each file's text (`none` when unreadable). -/
def build_context (files : List (List Char × Option (List Char)))
    (max_chars_total : Nat) : List Char × List CtxMeta :=
  let r := contextLoop files 0 max_chars_total
  if r.1.isEmpty then ([], r.2) else (ctxPreamble ++ r.1.flatten, r.2)

end Common

/-- Candidate chunks in discovery order: one marker block per readable file. -/
def skillCands (files : List (List Char × Option (List Char))) : List (List Char) :=
  files.filterMap fun pr => pr.2.map (skillAddition pr.1)

/-- Candidate skill metadata in discovery order, one entry per readable file. -/
def skillMetaCands (files : List (List Char × Option (List Char))) : List SkillMeta :=
  files.filterMap fun pr => pr.2.map fun t => ⟨pr.1, Common.extract_frontmatter_name t⟩

/-- Candidate context chunks in discovery order. -/
def ctxCands (files : List (List Char × Option (List Char))) : List (List Char) :=
  files.filterMap fun pr => pr.2.map (contextAddition pr.1)

/-- Total emitted length of a chunk list. -/
def sumLens (l : List (List Char)) : Nat := (l.map List.length).sum

theorem sumLens_nil : sumLens [] = 0 := rfl

theorem sumLens_cons (a : List Char) (l : List (List Char)) :
    sumLens (a :: l) = a.length + sumLens l := by
  simp [sumLens]

theorem skillsLoop_spec (files : List (List Char × Option (List Char)))
    (used budget : Nat) (h : used ≤ budget) :
    ∃ k, (skillsLoop files used budget).1 = (skillCands files).take k
      ∧ used + sumLens ((skillCands files).take k) ≤ budget
      ∧ ((skillCands files).get? k = none
          ∨ ∃ c, (skillCands files).get? k = some c
              ∧ budget < used + sumLens ((skillCands files).take k) + c.length)
      ∧ (skillsLoop files used budget).2 = (skillMetaCands files).take (k + 1) := by
  induction files generalizing used with
  | nil =>
    exact ⟨0, rfl, by simpa [sumLens] using h, Or.inl rfl, rfl⟩
  | cons hd rest ih =>
    obtain ⟨p, t?⟩ := hd
    cases t? with
    | none =>
      simpa [skillsLoop, skillCands, skillMetaCands] using ih used h
    | some t =>
      by_cases hlt : budget < used + (skillAddition p t).length
      · refine ⟨0, ?_, ?_, ?_, ?_⟩
        · simp [skillsLoop, hlt]
        · simpa [sumLens] using h
        · refine Or.inr ⟨skillAddition p t, ?_, ?_⟩
          · simp [skillCands]
          · simpa [sumLens] using hlt
        · simp [skillsLoop, hlt, skillMetaCands]
      · have hle : used + (skillAddition p t).length ≤ budget := Nat.le_of_not_lt hlt
        obtain ⟨k, h1, h2, h3, h4⟩ := ih (used + (skillAddition p t).length) hle
        refine ⟨k + 1, ?_, ?_, ?_, ?_⟩
        · simp [skillsLoop, hlt, skillCands, h1]
        · simp only [skillCands, List.filterMap_cons, Option.map_some', List.take_succ_cons,
            sumLens_cons] at h2 ⊢
          omega
        · simp only [skillCands, List.filterMap_cons, Option.map_some', List.take_succ_cons,
            sumLens_cons, List.get?_cons_succ] at h3 ⊢
          rcases h3 with h3 | ⟨c, hc1, hc2⟩
          · exact Or.inl h3
          · exact Or.inr ⟨c, hc1, by omega⟩
        · simp [skillsLoop, hlt, skillMetaCands, h4]

theorem contextLoop_spec (files : List (List Char × Option (List Char)))
    (used budget : Nat) (h : used ≤ budget) :
    ∃ k, (contextLoop files used budget).1 = (ctxCands files).take k
      ∧ used + sumLens ((ctxCands files).take k) ≤ budget
      ∧ ((ctxCands files).get? k = none
          ∨ ∃ c, (ctxCands files).get? k = some c
              ∧ budget < used + sumLens ((ctxCands files).take k) + c.length) := by
  induction files generalizing used with
  | nil =>
    exact ⟨0, rfl, by simpa [sumLens] using h, Or.inl rfl⟩
  | cons hd rest ih =>
    obtain ⟨p, t?⟩ := hd
    cases t? with
    | none =>
      simpa [contextLoop, ctxCands] using ih used h
    | some t =>
      by_cases hlt : budget < used + (contextAddition p t).length
      · refine ⟨0, ?_, ?_, ?_⟩
        · simp [contextLoop, hlt]
        · simpa [sumLens] using h
        · refine Or.inr ⟨contextAddition p t, ?_, ?_⟩
          · simp [ctxCands]
          · simpa [sumLens] using hlt
      · have hle : used + (contextAddition p t).length ≤ budget := Nat.le_of_not_lt hlt
        obtain ⟨k, h1, h2, h3⟩ := ih (used + (contextAddition p t).length) hle
        refine ⟨k + 1, ?_, ?_, ?_⟩
        · simp [contextLoop, hlt, ctxCands, h1]
        · simp only [ctxCands, List.filterMap_cons, Option.map_some', List.take_succ_cons,
            sumLens_cons] at h2 ⊢
          omega
        · simp only [ctxCands, List.filterMap_cons, Option.map_some', List.take_succ_cons,
            sumLens_cons, List.get?_cons_succ] at h3 ⊢
          rcases h3 with h3 | ⟨c, hc1, hc2⟩
          · exact Or.inl h3
          · exact Or.inr ⟨c, hc1, by omega⟩

/-- Claim C2.  For both assemblers, the emitted chunks are a contiguous
prefix of the candidate chunks in discovery order (so no chunk is truncated
mid-chunk), their cumulative emitted length is at most the budget, and the
cut happens exactly at the first candidate whose inclusion would cross the
budget (either every candidate is emitted, or the next candidate overflows
and it together with everything after it is discarded). -/
theorem budget_cut_contiguous (files : List (List Char × Option (List Char)))
    (budget : Nat) :
    (∃ k, (skillsLoop files 0 budget).1 = (skillCands files).take k
        ∧ sumLens ((skillCands files).take k) ≤ budget
        ∧ ((skillCands files).get? k = none
            ∨ ∃ c, (skillCands files).get? k = some c
                ∧ budget < sumLens ((skillCands files).take k) + c.length))
    ∧ (∃ k, (contextLoop files 0 budget).1 = (ctxCands files).take k
        ∧ sumLens ((ctxCands files).take k) ≤ budget
        ∧ ((ctxCands files).get? k = none
            ∨ ∃ c, (ctxCands files).get? k = some c
                ∧ budget < sumLens ((ctxCands files).take k) + c.length)) := by
  constructor
  · obtain ⟨k, h1, h2, h3, _⟩ := skillsLoop_spec files 0 budget (Nat.zero_le _)
    exact ⟨k, h1, by simpa using h2, by simpa using h3⟩
  · obtain ⟨k, h1, h2, h3⟩ := contextLoop_spec files 0 budget (Nat.zero_le _)
    exact ⟨k, h1, by simpa using h2, by simpa using h3⟩

/-- Claim C3, counterexample.  Three readable skill files `a`, `b`, `c` and
a budget that admits exactly the first chunk: the loop breaks at `b`, so the
metadata list keeps entries for `a` and for the cut file `b` but none for
the still-discovered file `c` — not "every discovered file". -/
theorem skills_meta_counterexample :
    ((Common.build_skills_context
        [("a".toList, some "x".toList), ("b".toList, some "y".toList),
         ("c".toList, some "z".toList)]
        (skillAddition "a".toList "x".toList).length).2).map SkillMeta.path
      = ["a".toList, "b".toList]
    ∧ ([("a".toList, some "x".toList), ("b".toList, some "y".toList),
        ("c".toList, some "z".toList)].map Prod.fst
      = ["a".toList, "b".toList, "c".toList]) := by
  exact ⟨by decide, by decide⟩

/-- Claim C3, amended.  The metadata list is the `(k+1)`-prefix of the
discovered readable files' entries, where `k` chunks were emitted: it
contains an entry for every readable file up to and including the first one
excluded by the budget cutoff, and no entry for any discovered file after
that cut. -/
theorem skills_meta_amended (files : List (List Char × Option (List Char)))
    (budget : Nat) :
    ∃ k, (skillsLoop files 0 budget).1 = (skillCands files).take k
      ∧ (Common.build_skills_context files budget).2 = (skillMetaCands files).take (k + 1) := by
  obtain ⟨k, h1, _, _, h4⟩ := skillsLoop_spec files 0 budget (Nat.zero_le _)
  refine ⟨k, h1, ?_⟩
  unfold Common.build_skills_context
  by_cases hc : (skillsLoop files 0 budget).1.isEmpty <;> simp [hc, h4]

theorem isPrefixL_iff (pat : List Char) : ∀ s : List Char,
    (isPrefixL pat s = true ↔ pat <+: s) := by
  induction pat with
  | nil => intro s; simp [isPrefixL]
  | cons p ps ih =>
    intro s
    cases s with
    | nil => simp [isPrefixL]
    | cons c cs =>
      by_cases hp : p = c
      · subst hp
        simp [isPrefixL, ih, List.cons_prefix_cons]
      · simp [isPrefixL, hp, List.cons_prefix_cons]

theorem containsSub_iff (pat : List Char) : ∀ l : List Char,
    (containsSub pat l = true ↔ pat <:+: l) := by
  intro l
  induction l with
  | nil => simp [containsSub, List.isEmpty_iff]
  | cons c rest ih =>
    have hstep : containsSub pat (c :: rest)
        = (isPrefixL pat (c :: rest) || containsSub pat rest) := rfl
    rw [hstep]
    simp [ isPrefixL_iff, ih, List.infix_cons_iff]

namespace Eval

/-- One trace entry as the runner's JSON records it, restricted to the
fields the checks read (`type`, `command`, `path`); an absent key is the
empty-string default `call.get` supplies. -/
structure TraceCall where
  ctype : List Char
  command : List Char
  path : List Char
deriving DecidableEq

/-- trace_contains_command of src/eval.py lines 68-75, at the patterns
eval_case passes it: eval_case (lines 124 and 131) always calls it on
`re.escape(cmd_pat)`, and `re.compile(re.escape(p)).search(cmd)` succeeds
exactly when `p` occurs in `cmd` as a literal substring — the documented
semantics of the external `re` module, the modelling boundary here.  Only
entries of type `"shell"` are searched. -/
def trace_contains_command (tool_calls : List TraceCall) (pattern : List Char) : Bool :=
  tool_calls.any fun call =>
    call.ctype == "shell".toList && containsSub pattern call.command

/-- The must_run check of eval_case, src/eval.py lines 123-128. -/
def mustRunCheck (tool_calls : List TraceCall) (pattern : List Char) : Bool :=
  trace_contains_command tool_calls pattern

/-- The must_not_run check of eval_case, src/eval.py lines 130-135. -/
def mustNotRunCheck (tool_calls : List TraceCall) (pattern : List Char) : Bool :=
  !trace_contains_command tool_calls pattern

end Eval

/-- Claim C6.  The must_run check passes iff some shell-type trace entry's
command contains the pattern as a literal substring (`<:+:`, treating the
pattern as literal text — eval_case escapes it before the regex search);
must_not_run is its exact negation; and non-shell entries are never matched:
restricting the trace to its shell entries never changes the check. -/
theorem must_run_literal_substring (tool_calls : List Eval.TraceCall) (pattern : List Char) :
    (Eval.mustRunCheck tool_calls pattern = true
      ↔ ∃ call ∈ tool_calls, call.ctype = "shell".toList ∧ pattern <:+: call.command)
    ∧ Eval.mustNotRunCheck tool_calls pattern = !Eval.mustRunCheck tool_calls pattern
    ∧ Eval.mustRunCheck (tool_calls.filter fun c => c.ctype == "shell".toList) pattern
        = Eval.mustRunCheck tool_calls pattern := by
  refine ⟨?_, rfl, ?_⟩
  · simp [Eval.mustRunCheck, Eval.trace_contains_command, List.any_eq_true,
      containsSub_iff, and_assoc]
  · induction tool_calls with
    | nil => rfl
    | cons t rest ih =>
      by_cases hp : (t.ctype == "shell".toList) = true
      · have hfil : (t :: rest).filter (fun c => c.ctype == "shell".toList)
            = t :: rest.filter (fun c => c.ctype == "shell".toList) := by
          rw [List.filter_cons, if_pos hp]
        show Eval.mustRunCheck ((t :: rest).filter fun c => c.ctype == "shell".toList) pattern
            = Eval.mustRunCheck (t :: rest) pattern
        rw [hfil]
        show ((t.ctype == "shell".toList && containsSub pattern t.command)
              || Eval.mustRunCheck (rest.filter fun c => c.ctype == "shell".toList) pattern)
            = ((t.ctype == "shell".toList && containsSub pattern t.command)
              || Eval.mustRunCheck rest pattern)
        rw [ih]
      · have hpf : (t.ctype == "shell".toList) = false := Bool.eq_false_iff.mpr hp
        have hfil : (t :: rest).filter (fun c => c.ctype == "shell".toList)
            = rest.filter (fun c => c.ctype == "shell".toList) := by
          rw [List.filter_cons, if_neg hp]
        show Eval.mustRunCheck ((t :: rest).filter fun c => c.ctype == "shell".toList) pattern
            = Eval.mustRunCheck (t :: rest) pattern
        rw [hfil, ih]
        show Eval.mustRunCheck rest pattern
            = ((t.ctype == "shell".toList && containsSub pattern t.command)
              || Eval.mustRunCheck rest pattern)
        rw [hpf, Bool.false_and, Bool.false_or]

/-- Claim C6, witness: a concrete trace where `must_run "pytest"` passes via
one shell entry, and restricting to shell entries changes nothing. -/
theorem must_run_literal_substring_witness :
    (Eval.mustRunCheck
        [⟨"read".toList, [], "SKILL.md".toList⟩,
         ⟨"shell".toList, "pytest -q".toList, []⟩] "pytest".toList = true
      ↔ ∃ call ∈ [(⟨"read".toList, [], "SKILL.md".toList⟩ : Eval.TraceCall),
          ⟨"shell".toList, "pytest -q".toList, []⟩],
          call.ctype = "shell".toList ∧ "pytest".toList <:+: call.command)
    ∧ Eval.mustNotRunCheck
        [⟨"read".toList, [], "SKILL.md".toList⟩,
         ⟨"shell".toList, "pytest -q".toList, []⟩] "pytest".toList
      = !Eval.mustRunCheck
          [⟨"read".toList, [], "SKILL.md".toList⟩,
           ⟨"shell".toList, "pytest -q".toList, []⟩] "pytest".toList
    ∧ Eval.mustRunCheck
        ([⟨"read".toList, [], "SKILL.md".toList⟩,
          ⟨"shell".toList, "pytest -q".toList, []⟩].filter
            fun c => c.ctype == "shell".toList) "pytest".toList
      = Eval.mustRunCheck
          [⟨"read".toList, [], "SKILL.md".toList⟩,
           ⟨"shell".toList, "pytest -q".toList, []⟩] "pytest".toList :=
  must_run_literal_substring _ _

theorem dropWhile_ne_nil {α : Type} (p : α → Bool) (l : List α) (a : α)
    (ha : a ∈ l) (hpa : p a = false) : l.dropWhile p ≠ [] := by
  induction l with
  | nil => cases ha
  | cons x xs ih =>
    rcases List.mem_cons.mp ha with h | h
    · subst h
      simp [List.dropWhile_cons, hpa]
    · by_cases hx : p x = true
      · simpa [List.dropWhile_cons, hx] using ih h
      · simp [List.dropWhile_cons, hx]

/-- Everything of the path up to and including its last separator. -/
def dirnameHead (p : List Char) : List Char :=
  (p.reverse.dropWhile (· != '/')).reverse

/-- POSIX `os.path.dirname`: the part before the last separator, trailing
separators stripped unless that part is all separators. -/
def dirname (p : List Char) : List Char :=
  if (dirnameHead p).isEmpty then []
  else if (dirnameHead p).all (· == '/') then dirnameHead p
  else ((dirnameHead p).reverse.dropWhile (· == '/')).reverse

/-- Ancestor chain of a directory under iterated `dirname`, with enough fuel
to reach a fixpoint: the directories `os.makedirs(d, exist_ok=True)`
guarantees to exist. -/
def ancestorChain : Nat → List Char → List (List Char)
  | 0, _ => []
  | _ + 1, [] => []
  | fuel + 1, d => d :: ancestorChain fuel (dirname d)

/-- File-system state: the directories created so far and an association
list of file contents keyed by absolute path (later writes shadow earlier
entries). -/
structure WorkFS where
  dirs : List (List Char)
  files : List (List Char × List Char)
deriving DecidableEq

/-- First-match association-list lookup. -/
def lookupFile : List (List Char × List Char) → List Char → Option (List Char)
  | [], _ => none
  | (p, c) :: rest, q => if p = q then some c else lookupFile rest q

/-- read_file of src/common.py lines 13-16 (duplicated verbatim at
src/interactive.py lines 32-35): open the confined path and return its
text; `none` models the uncaught FileNotFoundError when the path holds no
file. -/
def read_file (workspace path : List Char) (fs : WorkFS) : Option (List Char) :=
  lookupFile fs.files (Common.safe_join workspace path)

/-- write_file of src/common.py lines 19-24 (duplicated verbatim at
src/interactive.py lines 38-43): `os.makedirs(os.path.dirname(abspath),
exist_ok=True)`, write the content at the confined path, and return the
confirmation f-string; `none` models the error makedirs raises when the
dirname is empty (never the case under an absolute workspace root). -/
def write_file (workspace path content : List Char) (fs : WorkFS) :
    Option (WorkFS × List Char) :=
  let abspath := Common.safe_join workspace path
  let d := dirname abspath
  if d.isEmpty then none
  else some
    ({ dirs := ancestorChain (d.length + 1) d ++ fs.dirs,
       files := (abspath, content) :: fs.files },
     "Wrote ".toList ++ Nat.toDigits 10 content.length ++ " bytes to ".toList ++ path)

/-- Confirmation message of a write, when it succeeds. -/
def writeMsg (workspace path content : List Char) (fs : WorkFS) : Option (List Char) :=
  (write_file workspace path content fs).map Prod.snd

/-- Directories existing after a write (empty when the write fails). -/
def writeDirs (workspace path content : List Char) (fs : WorkFS) : List (List Char) :=
  match write_file workspace path content fs with
  | none => []
  | some (fs', _) => fs'.dirs

/-- Content stored at the confined path after a write. -/
def writeLookup (workspace path content : List Char) (fs : WorkFS) : Option (List Char) :=
  match write_file workspace path content fs with
  | none => none
  | some (fs', _) => lookupFile fs'.files (Common.safe_join workspace path)

theorem dirname_ne_nil (p : List Char) (h : '/' ∈ p) : dirname p ≠ [] := by
  have hh : dirnameHead p ≠ [] := by
    have h1 : p.reverse.dropWhile (· != '/') ≠ [] :=
      dropWhile_ne_nil _ _ '/' (List.mem_reverse.mpr h) (by simp)
    intro heq
    exact h1 (List.reverse_eq_nil_iff.mp heq)
  unfold dirname
  rw [if_neg (by simpa [List.isEmpty_iff] using hh)]
  by_cases hall : (dirnameHead p).all (· == '/') = true
  · rw [if_pos hall]
    exact hh
  · rw [if_neg hall]
    obtain ⟨c, hc, hcf⟩ : ∃ c ∈ dirnameHead p, ¬ ((c == '/') = true) := by
      simpa [List.all_eq_true] using hall
    intro heq
    have h2 : (dirnameHead p).reverse.dropWhile (· == '/') ≠ [] :=
      dropWhile_ne_nil _ _ c (List.mem_reverse.mpr hc) (by simpa using hcf)
    exact h2 (List.reverse_eq_nil_iff.mp heq)

theorem slash_mem_osPathJoin (ws x : List Char) (h : startsWithSlash ws = true) :
    '/' ∈ osPathJoin ws x := by
  have hws : '/' ∈ ws := by
    cases ws with
    | nil => simp [startsWithSlash] at h
    | cons c rest =>
      have hc : c = '/' := by simpa [startsWithSlash] using h
      simp [hc]
  unfold osPathJoin
  by_cases hx : startsWithSlash x = true
  · rw [if_pos hx]
    cases x with
    | nil => simp [startsWithSlash] at hx
    | cons c rest =>
      have hc : c = '/' := by simpa [startsWithSlash] using hx
      simp [hc]
  · rw [if_neg hx]
    have hemp : ¬ ws.isEmpty = true := by
      intro he
      rw [List.isEmpty_iff.mp he] at hws
      cases hws
    rw [if_neg hemp]
    by_cases hes : endsWithSlash ws = true
    · rw [if_pos hes]
      exact List.mem_append.mpr (Or.inl hws)
    · rw [if_neg hes]
      exact List.mem_append.mpr (Or.inl hws)

theorem mem_ancestorChain_self (d : List Char) (hd : d ≠ []) (fuel : Nat)
    (hf : 0 < fuel) : d ∈ ancestorChain fuel d := by
  cases fuel with
  | zero => omega
  | succ f =>
    cases d with
    | nil => exact absurd rfl hd
    | cons c r => simp [ancestorChain]

/-- Claim C8.  Under an absolute workspace root, `write_file` succeeds for
every path and content: the confirmation string reports the length of the
content and the original path, the parent directory of the confined target
exists afterwards (makedirs), and the target path then holds the content. -/
theorem write_file_spec (workspace path content : List Char) (fs : WorkFS)
    (h : startsWithSlash workspace = true) :
    writeMsg workspace path content fs
      = some ("Wrote ".toList ++ Nat.toDigits 10 content.length
          ++ " bytes to ".toList ++ path)
    ∧ dirname (Common.safe_join workspace path) ∈ writeDirs workspace path content fs
    ∧ writeLookup workspace path content fs = some content := by
  have hd : dirname (Common.safe_join workspace path) ≠ [] :=
    dirname_ne_nil _ (slash_mem_osPathJoin workspace _ h)
  have hne : ¬ (dirname (Common.safe_join workspace path)).isEmpty = true := by
    simpa [List.isEmpty_iff] using hd
  refine ⟨?_, ?_, ?_⟩
  · simp [writeMsg, write_file, hne]
  · simp only [writeDirs, write_file, hne, if_neg, if_false]
    refine List.mem_append.mpr (Or.inl ?_)
    exact mem_ancestorChain_self _ hd _ (Nat.succ_pos _)
  · simp [writeLookup, write_file, hne, lookupFile]

/-- Claim C8, witness at a concrete write into an empty workspace. -/
theorem write_file_spec_witness :
    writeMsg "/ws".toList "a/b.txt".toList "hi".toList ⟨[], []⟩
      = some ("Wrote ".toList ++ Nat.toDigits 10 "hi".toList.length
          ++ " bytes to ".toList ++ "a/b.txt".toList)
    ∧ dirname (Common.safe_join "/ws".toList "a/b.txt".toList)
        ∈ writeDirs "/ws".toList "a/b.txt".toList "hi".toList ⟨[], []⟩
    ∧ writeLookup "/ws".toList "a/b.txt".toList "hi".toList ⟨[], []⟩
      = some "hi".toList :=
  write_file_spec "/ws".toList "a/b.txt".toList "hi".toList ⟨[], []⟩ (by decide)

/-- Lexicographic order on strings by code point, as Python compares `str`
values in `list.sort()`. -/
def lexLe : List Char → List Char → Bool
  | [], _ => true
  | _ :: _, [] => false
  | a :: as, b :: bs => if a = b then lexLe as bs else decide (a < b)

namespace Common

/-- find_skill_markdowns of src/common.py lines 54-61, modelled over the
`os.walk` output (the pairs of visited root and its file names, walk order):
keep the names equal to `"SKILL.md"` or lower-casing to `"skill.md"`, join
each to its root, and sort the hits. -/
def find_skill_markdowns (walk : List (List Char × List (List Char))) : List (List Char) :=
  (walk.flatMap fun pr =>
    (pr.2.filter fun fn => fn == "SKILL.md".toList || lowerL fn == "skill.md".toList).map
      (osPathJoin pr.1)).mergeSort lexLe

end Common

namespace Interactive

/-- safe_join of src/interactive.py lines 27-29: the duplicated copy,
translated from its own file. -/
def safe_join (workspace relpath : List Char) : List Char :=
  osPathJoin workspace (removeDotDot (lstripSlash relpath))

/-- extract_frontmatter_name of src/interactive.py lines 73-88: the
duplicated copy, translated from its own file. -/
def extract_frontmatter_name (md : List Char) : List Char :=
  match splitlines md with
  | [] => []
  | first :: rest =>
    if stripL first ≠ dashes then []
    else
      match findClose rest (min (rest.length + 1) 2000 - 1) with
      | none => []
      | some k =>
        match findName (rest.take k) with
        | none => []
        | some line => parseName line

/-- find_skill_markdowns of src/interactive.py lines 63-70: the duplicated
copy. -/
def find_skill_markdowns (walk : List (List Char × List (List Char))) : List (List Char) :=
  (walk.flatMap fun pr =>
    (pr.2.filter fun fn => fn == "SKILL.md".toList || lowerL fn == "skill.md".toList).map
      (osPathJoin pr.1)).mergeSort lexLe

/-- Marker block of src/interactive.py lines 114-117 (the duplicated
f-strings), around the duplicated name extraction. -/
def skillAddition (relPath text : List Char) : List Char :=
  let name := Interactive.extract_frontmatter_name text
  let disp := if name.isEmpty then unnamedMark else name
  "\n\n===== SKILL START: ".toList ++ disp ++ " | ".toList ++ relPath ++ " =====\n".toList
    ++ text
    ++ "\n===== SKILL END: ".toList ++ disp ++ " | ".toList ++ relPath ++ " =====\n".toList

/-- Chunk-collection loop of the duplicated build_skills_context
(src/interactive.py lines 104-122). -/
def skillsLoop : List (List Char × Option (List Char)) → Nat → Nat →
    List (List Char) × List SkillMeta
  | [], _, _ => ([], [])
  | (_, none) :: rest, used, budget => skillsLoop rest used budget
  | (p, some t) :: rest, used, budget =>
    let meta : SkillMeta := ⟨p, Interactive.extract_frontmatter_name t⟩
    let addition := Interactive.skillAddition p t
    if budget < used + addition.length then ([], [meta])
    else
      let r := skillsLoop rest (used + addition.length) budget
      (addition :: r.1, meta :: r.2)

/-- build_skills_context of src/interactive.py lines 91-133: the duplicated
copy, modelled like the src/common.py one. -/
def build_skills_context (files : List (List Char × Option (List Char)))
    (max_chars_total : Nat) : List Char × List SkillMeta :=
  let r := Interactive.skillsLoop files 0 max_chars_total
  if r.1.isEmpty then ([], r.2) else (skillsPreamble ++ r.1.flatten, r.2)

/-- Arguments of a tool call after `json.loads` on the payload and
`args_obj.get(key, "")`: the three fields the dispatcher reads, with absent
keys (or a whole malformed payload) already defaulted to empty strings. -/
structure ToolArgs where
  path : List Char
  content : List Char
  command : List Char
deriving DecidableEq

/-- A pending tool call as the dispatcher's normalization extracts it from a
`tool_call`/`function_call` response item: id, tool name, arguments. -/
structure PendingCall where
  cid : List Char
  name : List Char
  args : ToolArgs
deriving DecidableEq

/-- One correlated `function_call_output` item. -/
structure ToolOutput where
  call_id : List Char
  output : List Char
deriving DecidableEq

/-- Result dict of run_shell (src/common.py lines 27-41, duplicated at
src/interactive.py lines 46-60). -/
structure ShellRes where
  command : List Char
  exit_code : Int
  stdout : List Char
  stderr : List Char
deriving DecidableEq

/-- JSON string escaping restricted to the characters shell output
exercises. -/
def jsonEscape : List Char → List Char
  | [] => []
  | c :: rest =>
    (if c = Char.ofNat 34 then ['\\', Char.ofNat 34]
     else if c = '\\' then ['\\', '\\']
     else if c = '\n' then ['\\', 'n']
     else if c = '\r' then ['\\', 'r']
     else if c = '\t' then ['\\', 't']
     else [c]) ++ jsonEscape rest

/-- A JSON string literal. -/
def jsonStr (s : List Char) : List Char :=
  Char.ofNat 34 :: (jsonEscape s ++ [Char.ofNat 34])

/-- Decimal rendering of an integer. -/
def intStr (i : Int) : List Char :=
  if i < 0 then '-' :: Nat.toDigits 10 i.natAbs else Nat.toDigits 10 i.natAbs

/-- json.dumps of the run_shell result dict, in insertion order. -/
def jsonDumpsShell (r : ShellRes) : List Char :=
  "\x7b\"command\": ".toList ++ jsonStr r.command
    ++ ", \"exit_code\": ".toList ++ intStr r.exit_code
    ++ ", \"stdout\": ".toList ++ jsonStr r.stdout
    ++ ", \"stderr\": ".toList ++ jsonStr r.stderr ++ "\x7d".toList

/-- The uncaught exceptions dispatch can die of (src/interactive.py lines
341-396 call read_file/write_file without a try block; §7 of the spec calls
this out). -/
inductive ToolError
  | fileNotFound (abspath : List Char)
  | makedirsFailed (abspath : List Char)
deriving DecidableEq

/-- Dispatch of one pending call, src/interactive.py lines 321-396: the
name-keyed branches for read_file, write_file, run_shell, and the
`"Unknown tool: {name}"` sentinel for anything else.  The shell oracle
stands for the subprocess (it may rewrite the file system). -/
def dispatchOne (shell : WorkFS → List Char → ShellRes × WorkFS)
    (workspace : List Char) (fs : WorkFS) (call : PendingCall) :
    Except ToolError (WorkFS × ToolOutput) :=
  if call.name = "read_file".toList then
    match read_file workspace call.args.path fs with
    | none => .error (.fileNotFound (Common.safe_join workspace call.args.path))
    | some out => .ok (fs, ⟨call.cid, out⟩)
  else if call.name = "write_file".toList then
    match write_file workspace call.args.path call.args.content fs with
    | none => .error (.makedirsFailed (Common.safe_join workspace call.args.path))
    | some (fs', msg) => .ok (fs', ⟨call.cid, msg⟩)
  else if call.name = "run_shell".toList then
    let rs := shell fs call.args.command
    .ok (rs.2, ⟨call.cid, jsonDumpsShell rs.1⟩)
  else .ok (fs, ⟨call.cid, "Unknown tool: ".toList ++ call.name⟩)

/-- Sequential dispatch of every pending call (the `for call in
pending_calls` loop): one output appended per call; an uncaught error aborts
the rest. -/
def dispatchAll (shell : WorkFS → List Char → ShellRes × WorkFS)
    (workspace : List Char) : WorkFS → List PendingCall →
    Except ToolError (WorkFS × List ToolOutput)
  | fs, [] => .ok (fs, [])
  | fs, c :: rest =>
    match dispatchOne shell workspace fs c with
    | .error e => .error e
    | .ok (fs1, o) =>
      match dispatchAll shell workspace fs1 rest with
      | .error e => .error e
      | .ok (fs2, os) => .ok (fs2, o :: os)

/-- Outputs of a dispatch, empty when it aborted. -/
def dispatchOuts (shell : WorkFS → List Char → ShellRes × WorkFS)
    (workspace : List Char) (fs : WorkFS) (calls : List PendingCall) : List ToolOutput :=
  match dispatchAll shell workspace fs calls with
  | .error _ => []
  | .ok (_, os) => os

theorem dispatchOne_cid (shell : WorkFS → List Char → ShellRes × WorkFS)
    (workspace : List Char) (fs : WorkFS) (call : PendingCall)
    (fs1 : WorkFS) (o : ToolOutput)
    (h : dispatchOne shell workspace fs call = .ok (fs1, o)) :
    o.call_id = call.cid := by
  unfold dispatchOne at h
  split at h
  · split at h
    · cases h
    · simp only [Except.ok.injEq, Prod.mk.injEq] at h
      obtain ⟨h1, h2⟩ := h
      rw [← h2]
  · split at h
    · split at h
      · cases h
      · simp only [Except.ok.injEq, Prod.mk.injEq] at h
        obtain ⟨h1, h2⟩ := h
        rw [← h2]
    · split at h
      · simp only [Except.ok.injEq, Prod.mk.injEq] at h
        obtain ⟨h1, h2⟩ := h
        rw [← h2]
      · simp only [Except.ok.injEq, Prod.mk.injEq] at h
        obtain ⟨h1, h2⟩ := h
        rw [← h2]

theorem dispatchOne_unknown (shell : WorkFS → List Char → ShellRes × WorkFS)
    (workspace : List Char) (fs : WorkFS) (call : PendingCall)
    (h1 : call.name ≠ "read_file".toList) (h2 : call.name ≠ "write_file".toList)
    (h3 : call.name ≠ "run_shell".toList) :
    dispatchOne shell workspace fs call
      = .ok (fs, ⟨call.cid, "Unknown tool: ".toList ++ call.name⟩) := by
  unfold dispatchOne
  rw [if_neg h1, if_neg h2, if_neg h3]

/-- Claim C7, amended.  Whenever the sequential dispatch completes without an
uncaught file-system error, it yields exactly one correlated result per
pending call — equal length, the i-th output carrying the i-th call's id —
and a call whose tool name is none of read_file, write_file, run_shell
yields the visible `"Unknown tool: {name}"` sentinel rather than being
dropped.  (When a read_file hits an absent path, dispatch aborts instead:
see the counterexample.) -/
theorem dispatch_correlates (shell : WorkFS → List Char → ShellRes × WorkFS)
    (workspace : List Char) (fs : WorkFS) (calls : List PendingCall)
    (fs' : WorkFS) (outs : List ToolOutput)
    (h : dispatchAll shell workspace fs calls = .ok (fs', outs)) :
    outs.length = calls.length
    ∧ (∀ i, (outs.get? i).map ToolOutput.call_id = (calls.get? i).map PendingCall.cid)
    ∧ (∀ i call, calls.get? i = some call →
        call.name ≠ "read_file".toList → call.name ≠ "write_file".toList →
        call.name ≠ "run_shell".toList →
        outs.get? i = some ⟨call.cid, "Unknown tool: ".toList ++ call.name⟩) := by
  induction calls generalizing fs fs' outs with
  | nil =>
    unfold dispatchAll at h
    simp only [Except.ok.injEq, Prod.mk.injEq] at h
    obtain ⟨h1, h2⟩ := h
    subst h2
    exact ⟨rfl, fun i => rfl, fun i call hc => by cases hc⟩
  | cons c rest ih =>
    unfold dispatchAll at h
    cases hone : dispatchOne shell workspace fs c with
    | error e => rw [hone] at h; cases h
    | ok p =>
      obtain ⟨fs1, o⟩ := p
      rw [hone] at h
      have hstep : (match dispatchAll shell workspace fs1 rest with
          | Except.error e => (Except.error e : Except ToolError (WorkFS × List ToolOutput))
          | Except.ok (fs2, os) => Except.ok (fs2, o :: os)) = Except.ok (fs', outs) := h
      cases hrest : dispatchAll shell workspace fs1 rest with
      | error e => rw [hrest] at hstep; cases hstep
      | ok q =>
        obtain ⟨fs2, os⟩ := q
        rw [hrest] at hstep
        simp only [Except.ok.injEq, Prod.mk.injEq] at hstep
        obtain ⟨h1, h2⟩ := hstep
        subst h2
        obtain ⟨ihlen, ihcid, ihunk⟩ := ih fs1 fs2 os hrest
        refine ⟨by simp [ihlen], ?_, ?_⟩
        · intro i
          cases i with
          | zero => simp [dispatchOne_cid shell workspace fs c fs1 o hone]
          | succ j => simpa using ihcid j
        · intro i call hc hn1 hn2 hn3
          cases i with
          | zero =>
            simp only [List.get?_cons_zero, Option.some.injEq] at hc
            subst hc
            rw [dispatchOne_unknown shell workspace fs c hn1 hn2 hn3] at hone
            simp only [Except.ok.injEq, Prod.mk.injEq] at hone
            obtain ⟨g1, g2⟩ := hone
            rw [List.get?_cons_zero, ← g2]
          | succ j =>
            simp only [List.get?_cons_succ] at hc ⊢
            exact ihunk j call hc hn1 hn2 hn3

/-- A shell oracle standing for a subprocess that succeeds silently and
leaves the workspace untouched. -/
def constShell : WorkFS → List Char → ShellRes × WorkFS :=
  fun fs cmd => (⟨cmd, 0, [], []⟩, fs)

/-- Claim C7, counterexample.  Two pending calls — a read_file of an absent
path followed by an unknown tool — produce zero results: the uncaught
FileNotFoundError aborts the dispatch, so neither call gets a correlated
result, contradicting "every pending tool call produces exactly one
correlated result". -/
theorem dispatch_drops_calls_on_read_error :
    dispatchAll constShell "/ws".toList ⟨[], []⟩
      [⟨"c1".toList, "read_file".toList, ⟨"missing.txt".toList, [], []⟩⟩,
       ⟨"c2".toList, "frobnicate".toList, ⟨[], [], []⟩⟩]
      = .error (.fileNotFound "/ws/missing.txt".toList)
    ∧ dispatchOuts constShell "/ws".toList ⟨[], []⟩
        [⟨"c1".toList, "read_file".toList, ⟨"missing.txt".toList, [], []⟩⟩,
         ⟨"c2".toList, "frobnicate".toList, ⟨[], [], []⟩⟩] = []
    ∧ ([⟨"c1".toList, "read_file".toList, ⟨"missing.txt".toList, [], []⟩⟩,
        (⟨"c2".toList, "frobnicate".toList, ⟨[], [], []⟩⟩ : PendingCall)] : List PendingCall).length
      = 2 := by
  exact ⟨by rfl, by rfl, by rfl⟩

/-- Concrete pending calls for the dispatch witness: one run_shell call, one
unknown tool. -/
def witnessCalls : List PendingCall :=
  [⟨"c1".toList, "run_shell".toList, ⟨[], [], "echo hi".toList⟩⟩,
   ⟨"c2".toList, "frobnicate".toList, ⟨[], [], []⟩⟩]

/-- The outputs that dispatch yields on `witnessCalls`. -/
def witnessOuts : List ToolOutput :=
  [⟨"c1".toList, jsonDumpsShell ⟨"echo hi".toList, 0, [], []⟩⟩,
   ⟨"c2".toList, "Unknown tool: ".toList ++ "frobnicate".toList⟩]

/-- Claim C7, witness for the amended theorem: a successful dispatch of a
shell call and an unknown tool, every hypothesis discharged concretely. -/
theorem dispatch_correlates_witness :
    witnessOuts.length = witnessCalls.length
    ∧ (∀ i, (witnessOuts.get? i).map ToolOutput.call_id
        = (witnessCalls.get? i).map PendingCall.cid)
    ∧ (∀ i call, witnessCalls.get? i = some call →
        call.name ≠ "read_file".toList → call.name ≠ "write_file".toList →
        call.name ≠ "run_shell".toList →
        witnessOuts.get? i = some ⟨call.cid, "Unknown tool: ".toList ++ call.name⟩) :=
  dispatch_correlates constShell "/ws".toList ⟨[], []⟩ witnessCalls ⟨[], []⟩ witnessOuts
    (by rfl)

/-- A normalized response item: the single adapter's two tagged kinds (text
fragment or tool call), src/interactive.py lines 294-311. -/
inductive RespItem
  | text (content : List Char)
  | call (c : PendingCall)
deriving DecidableEq

/-- The pending calls of a response (items of type
tool_call/function_call). -/
def pendingCalls (resp : List RespItem) : List PendingCall :=
  resp.filterMap fun item =>
    match item with
    | .call c => some c
    | _ => none

/-- A conversation entry: system/user/assistant messages, raw model output
items appended back, and tool outputs. -/
inductive ConvEntry
  | system (s : List Char)
  | user (s : List Char)
  | assistant (s : List Char)
  | modelItem (i : RespItem)
  | toolOut (o : ToolOutput)
deriving DecidableEq

/-- Result of one user turn's tool loop: final state plus how many dispatch
iterations ran. -/
structure LoopOut where
  fs : WorkFS
  conv : List ConvEntry
  resp : List RespItem
  steps : Nat

/-- The `for _ in range(args.max_steps)` tool loop of one user turn,
src/interactive.py lines 290-406: parse the response; break when no tool
call is pending; otherwise append the model items, dispatch every pending
call sequentially, append the outputs, ask the model again (the oracle) and
continue.  An uncaught dispatch error ends the turn (the process dies); it
still counts its iteration. -/
def agentLoop (oracle : List ConvEntry → List RespItem)
    (shell : WorkFS → List Char → ShellRes × WorkFS) (workspace : List Char) :
    Nat → WorkFS → List ConvEntry → List RespItem → LoopOut
  | 0, fs, conv, resp => ⟨fs, conv, resp, 0⟩
  | n + 1, fs, conv, resp =>
    if (pendingCalls resp).isEmpty then ⟨fs, conv, resp, 0⟩
    else
      let conv1 := conv ++ resp.map ConvEntry.modelItem
      match dispatchAll shell workspace fs (pendingCalls resp) with
      | .error _ => ⟨fs, conv1, resp, 1⟩
      | .ok (fs', outs) =>
        let conv2 := conv1 ++ outs.map ConvEntry.toolOut
        let r := agentLoop oracle shell workspace n fs' conv2 (oracle conv2)
        ⟨r.fs, r.conv, r.resp, r.steps + 1⟩

/-- The argparse default of `--max-steps`, src/interactive.py lines
202-204. -/
def defaultMaxSteps : Nat := 20

/-- A response item that is always a tool call (a scripted model double): a
run_shell request, which dispatch always answers. -/
def alwaysShellItem : RespItem :=
  .call ⟨"c1".toList, "run_shell".toList, ⟨[], [], "echo".toList⟩⟩

theorem dispatchAll_single_shell (shell : WorkFS → List Char → ShellRes × WorkFS)
    (workspace : List Char) (fs : WorkFS) :
    dispatchAll shell workspace fs (pendingCalls [alwaysShellItem])
      = .ok ((shell fs "echo".toList).2,
          [⟨"c1".toList, jsonDumpsShell (shell fs "echo".toList).1⟩]) := by
  show dispatchAll shell workspace fs
      [⟨"c1".toList, "run_shell".toList, ⟨[], [], "echo".toList⟩⟩] = _
  unfold dispatchAll dispatchOne
  rw [if_neg (by decide), if_neg (by decide), if_pos rfl]
  rfl

theorem agentLoop_steps_le (oracle : List ConvEntry → List RespItem)
    (shell : WorkFS → List Char → ShellRes × WorkFS) (workspace : List Char) :
    ∀ (n : Nat) (fs : WorkFS) (conv : List ConvEntry) (resp : List RespItem),
    (agentLoop oracle shell workspace n fs conv resp).steps ≤ n := by
  intro n
  induction n with
  | zero => intro fs conv resp; exact Nat.le_refl 0
  | succ n ih =>
    intro fs conv resp
    unfold agentLoop
    by_cases hp : (pendingCalls resp).isEmpty = true
    · simp [hp]
    · rw [if_neg hp]
      cases hd : dispatchAll shell workspace fs (pendingCalls resp) with
      | error e => simp [hd]
      | ok p =>
        obtain ⟨fs', outs⟩ := p
        simpa [hd] using Nat.succ_le_succ (ih fs' _ _)

theorem agentLoop_always_call (shell : WorkFS → List Char → ShellRes × WorkFS)
    (workspace : List Char) :
    ∀ (n : Nat) (fs : WorkFS) (conv : List ConvEntry),
    (agentLoop (fun _ => [alwaysShellItem]) shell workspace n fs conv
      [alwaysShellItem]).steps = n := by
  intro n
  induction n with
  | zero => intro fs conv; rfl
  | succ n ih =>
    intro fs conv
    unfold agentLoop
    rw [if_neg (by decide), dispatchAll_single_shell shell workspace fs]
    simpa using ih (shell fs "echo".toList).2 _

/-- Claim C5.  The tool-dispatch cycle of one user turn performs at most the
configured number of steps for every model behaviour (every oracle); when
the response has no pending tool call the turn ends at once (before the
bound); a scripted model double that returns a tool call on every response
makes the loop exit exactly at the bound; and the configured default bound
is 20. -/
theorem agent_loop_bounded (oracle : List ConvEntry → List RespItem)
    (shell : WorkFS → List Char → ShellRes × WorkFS) (workspace : List Char)
    (maxSteps : Nat) (fs : WorkFS) (conv : List ConvEntry) (resp : List RespItem) :
    (agentLoop oracle shell workspace maxSteps fs conv resp).steps ≤ maxSteps
    ∧ (pendingCalls resp = [] →
        (agentLoop oracle shell workspace maxSteps fs conv resp).steps = 0)
    ∧ (agentLoop (fun _ => [alwaysShellItem]) shell workspace maxSteps fs conv
        [alwaysShellItem]).steps = maxSteps
    ∧ defaultMaxSteps = 20 := by
  refine ⟨agentLoop_steps_le oracle shell workspace maxSteps fs conv resp, ?_,
    agentLoop_always_call shell workspace maxSteps fs conv, rfl⟩
  intro hp
  cases maxSteps with
  | zero => rfl
  | succ n =>
    unfold agentLoop
    rw [if_pos (by simp [hp])]

/-- The model double that never calls a tool. -/
def noToolOracle : List ConvEntry → List RespItem := fun _ => []

/-- Claim C5, witness at bound 3: an idle model ends at 0 steps, the
always-calling double at exactly 3. -/
theorem agent_loop_bounded_witness :
    (agentLoop noToolOracle constShell "/ws".toList 3 ⟨[], []⟩ [] []).steps ≤ 3
    ∧ (agentLoop noToolOracle constShell "/ws".toList 3 ⟨[], []⟩ [] []).steps = 0
    ∧ (agentLoop (fun _ => [alwaysShellItem]) constShell "/ws".toList 3 ⟨[], []⟩ []
        [alwaysShellItem]).steps = 3
    ∧ defaultMaxSteps = 20 := by
  have h := agent_loop_bounded noToolOracle constShell "/ws".toList 3 ⟨[], []⟩ [] []
  exact ⟨h.1, h.2.1 rfl, h.2.2.1, h.2.2.2⟩

end Interactive

theorem skillAddition_agree (p t : List Char) :
    Interactive.skillAddition p t = skillAddition p t := rfl

theorem skillsLoop_agree : ∀ (files : List (List Char × Option (List Char)))
    (used budget : Nat),
    Interactive.skillsLoop files used budget = skillsLoop files used budget := by
  intro files
  induction files with
  | nil => intro used budget; rfl
  | cons hd rest ih =>
    intro used budget
    obtain ⟨p, t?⟩ := hd
    cases t? with
    | none =>
      show Interactive.skillsLoop rest used budget = skillsLoop rest used budget
      exact ih used budget
    | some t =>
      show (if budget < used + (Interactive.skillAddition p t).length
            then ([], [⟨p, Interactive.extract_frontmatter_name t⟩])
            else
              let r := Interactive.skillsLoop rest (used + (Interactive.skillAddition p t).length) budget
              (Interactive.skillAddition p t :: r.1,
                (⟨p, Interactive.extract_frontmatter_name t⟩ : SkillMeta) :: r.2))
          = skillsLoop ((p, some t) :: rest) used budget
      rw [skillAddition_agree p t]
      rw [show Interactive.extract_frontmatter_name t = Common.extract_frontmatter_name t from rfl]
      rw [ih (used + (skillAddition p t).length) budget]
      rfl

/-- Claim C10.  The four functions src/interactive.py duplicates from
src/common.py — safe_join, extract_frontmatter_name, find_skill_markdowns,
build_skills_context — agree with the src/common.py definitions on every
input. -/
theorem duplicated_defs_agree :
    (∀ workspace relpath : List Char,
      Interactive.safe_join workspace relpath = Common.safe_join workspace relpath)
    ∧ (∀ md : List Char,
      Interactive.extract_frontmatter_name md = Common.extract_frontmatter_name md)
    ∧ (∀ walk : List (List Char × List (List Char)),
      Interactive.find_skill_markdowns walk = Common.find_skill_markdowns walk)
    ∧ (∀ (files : List (List Char × Option (List Char))) (budget : Nat),
      Interactive.build_skills_context files budget
        = Common.build_skills_context files budget) := by
  refine ⟨fun _ _ => rfl, fun _ => rfl, fun _ => rfl, fun files budget => ?_⟩
  unfold Interactive.build_skills_context Common.build_skills_context
  rw [skillsLoop_agree files 0 budget]

end AgentEval
